import Mathlib

/-!
Verification development for the mediadevices core: the property/constraint
model with its fitness-distance evaluator (pkg/prop/prop.go) and the per-track
capture-encode-emit pipelines with their lifecycle handling (track.go).

Machine floats of the Go source (float64 arithmetic in fitnessDistance and in
the audio sample-size computation) are modelled exactly over the rationals;
strconv.ParseFloat is modelled by an exact decimal parser over the rationals
covering the decimal syntax (sign, digits, optional fraction, optional
exponent).  The special float forms Inf/NaN, hexadecimal floats and digit
underscores accepted by Go never arise from any value rendered by this
program and are parsed as non-numeric here.  A Go panic and a Go error return
are both modelled as Option.none.
-/

/-- Decimal digit test, as used to delimit number tokens when parsing. -/
def isDigitChar (c : Char) : Bool := '0' ≤ c && c ≤ '9'

/-- Numeric value of a decimal digit character. -/
def digitVal (c : Char) : ℕ := c.toNat - '0'.toNat

/-- The decimal digit character for a value below ten. -/
def digitChar : ℕ → Char
  | 0 => '0'
  | 1 => '1'
  | 2 => '2'
  | 3 => '3'
  | 4 => '4'
  | 5 => '5'
  | 6 => '6'
  | 7 => '7'
  | 8 => '8'
  | 9 => '9'
  | _ => '*'

/-- Value of a digit string read most-significant first. -/
def digitsVal (l : List Char) : ℕ := l.foldl (fun a c => 10 * a + digitVal c) 0

/-- Fuel-driven decimal rendering of a natural number; empty on zero.
Mirrors the digit production of Go strconv.Itoa (as invoked by fmt.Sprint
on an int), written with explicit fuel so that it is structurally
recursive. -/
def natToDigitsAux : ℕ → ℕ → List Char
  | 0, _ => []
  | fuel + 1, n => if n = 0 then [] else natToDigitsAux fuel (n / 10) ++ [digitChar (n % 10)]

/-- Canonical decimal digits of a natural number, as produced by Go
fmt.Sprint on a non-negative int. -/
def natChars (n : ℕ) : List Char := if n = 0 then ['0'] else natToDigitsAux (n + 1) n

/-- Go fmt.Sprint on an int value (strconv.Itoa): canonical decimal with a
leading minus sign for negatives. -/
def sprintInt (n : ℤ) : String :=
  if n < 0 then String.mk ('-' :: natChars n.natAbs) else String.mk (natChars n.toNat)

/-- Exponent digits of a Go float literal: non-empty, all decimal digits. -/
def parseExpDigits (l : List Char) : Option ℤ :=
  if l = [] then none
  else if l.all isDigitChar then some ((digitsVal l : ℕ) : ℤ) else none

/-- Signed exponent of a Go float literal. -/
def parseExp (l : List Char) : Option ℤ :=
  match l with
  | [] => none
  | c :: rest =>
    if c = '+' then parseExpDigits rest
    else if c = '-' then (parseExpDigits rest).map (fun z => -z)
    else parseExpDigits (c :: rest)

/-- Unsigned decimal float body of Go strconv.ParseFloat: digits with an
optional fractional part and an optional exponent, the whole input
consumed, at least one mantissa digit required.  Exact over ℚ. -/
def parsePosFloat (l : List Char) : Option ℚ :=
  match l.dropWhile isDigitChar with
  | [] =>
    if l.takeWhile isDigitChar = [] then none
    else some ((digitsVal (l.takeWhile isDigitChar) : ℕ) : ℚ)
  | c :: rest2 =>
    if c = '.' then
      let ip := l.takeWhile isDigitChar
      let fp := rest2.takeWhile isDigitChar
      if ip = [] ∧ fp = [] then none
      else
        let m : ℚ := (digitsVal ip : ℕ) + ((digitsVal fp : ℕ) : ℚ) / 10 ^ fp.length
        match rest2.dropWhile isDigitChar with
        | [] => some m
        | c2 :: rest4 =>
          if c2 = 'e' ∨ c2 = 'E' then (parseExp rest4).map (fun ex => m * 10 ^ ex) else none
    else if c = 'e' ∨ c = 'E' then
      if l.takeWhile isDigitChar = [] then none
      else (parseExp rest2).map (fun ex => ((digitsVal (l.takeWhile isDigitChar) : ℕ) : ℚ) * 10 ^ ex)
    else none

/-- Sign handling of Go strconv.ParseFloat over the character list. -/
def goParseFloatAux : List Char → Option ℚ
  | [] => none
  | c :: rest =>
    if c = '+' then parsePosFloat rest
    else if c = '-' then (parsePosFloat rest).map (fun q => -q)
    else parsePosFloat (c :: rest)

/-- Model of Go strconv.ParseFloat (64-bit) on the decimal syntax, exact
over ℚ: optional sign followed by the unsigned body. -/
def goParseFloat (s : String) : Option ℚ := goParseFloatAux s.data

theorem digitVal_digitChar {d : ℕ} (h : d < 10) : digitVal (digitChar d) = d := by
  interval_cases d <;> rfl

theorem isDigitChar_digitChar {d : ℕ} (h : d < 10) : isDigitChar (digitChar d) = true := by
  interval_cases d <;> rfl

theorem digitsVal_append_digit (l : List Char) (c : Char) :
    digitsVal (l ++ [c]) = 10 * digitsVal l + digitVal c := by
  simp [digitsVal, List.foldl_append]

theorem natToDigitsAux_all_digits :
    ∀ (fuel n : ℕ), ∀ c ∈ natToDigitsAux fuel n, isDigitChar c = true := by
  intro fuel
  induction fuel with
  | zero => intro n c hc; simp [natToDigitsAux] at hc
  | succ fuel ih =>
    intro n c hc
    by_cases hn : n = 0
    · simp [natToDigitsAux, hn] at hc
    · simp only [natToDigitsAux, if_neg hn, List.mem_append, List.mem_singleton] at hc
      rcases hc with hc | hc
      · exact ih _ c hc
      · subst hc; exact isDigitChar_digitChar (Nat.mod_lt _ (by norm_num))

theorem natToDigitsAux_val :
    ∀ (fuel n : ℕ), n ≤ fuel → digitsVal (natToDigitsAux fuel n) = n := by
  intro fuel
  induction fuel with
  | zero =>
    intro n hn
    interval_cases n
    simp [natToDigitsAux, digitsVal]
  | succ fuel ih =>
    intro n hn
    by_cases h0 : n = 0
    · subst h0; simp [natToDigitsAux, digitsVal]
    · have hpos : 0 < n := Nat.pos_of_ne_zero h0
      have hdiv : n / 10 ≤ fuel := by
        have : n / 10 < n := Nat.div_lt_self hpos (by norm_num)
        omega
      simp only [natToDigitsAux, if_neg h0, digitsVal_append_digit, ih _ hdiv,
        digitVal_digitChar (Nat.mod_lt n (by norm_num : (0:ℕ) < 10))]
      omega

theorem natChars_ne_nil (n : ℕ) : natChars n ≠ [] := by
  by_cases h0 : n = 0
  · simp [natChars, h0]
  · simp only [natChars, if_neg h0]
    intro hcontra
    have := natToDigitsAux_val (n + 1) n (by omega)
    rw [hcontra] at this
    simp [digitsVal] at this
    omega

theorem natChars_all_digits (n : ℕ) : ∀ c ∈ natChars n, isDigitChar c = true := by
  by_cases h0 : n = 0
  · simp [natChars, h0, isDigitChar]
  · simp only [natChars, if_neg h0]
    exact natToDigitsAux_all_digits _ _

theorem natChars_val (n : ℕ) : digitsVal (natChars n) = n := by
  by_cases h0 : n = 0
  · simp [natChars, h0, digitsVal, digitVal]
  · simp only [natChars, if_neg h0]
    exact natToDigitsAux_val _ _ (by omega)

theorem takeWhile_eq_self_of_all {p : Char → Bool} :
    ∀ l : List Char, (∀ c ∈ l, p c = true) → l.takeWhile p = l := by
  intro l
  induction l with
  | nil => intro _; rfl
  | cons c cs ih =>
    intro h
    have hc : p c = true := h c (by simp)
    simp [List.takeWhile, hc, ih (fun d hd => h d (by simp [hd]))]

theorem dropWhile_eq_nil_of_all {p : Char → Bool} :
    ∀ l : List Char, (∀ c ∈ l, p c = true) → l.dropWhile p = [] := by
  intro l
  induction l with
  | nil => intro _; rfl
  | cons c cs ih =>
    intro h
    have hc : p c = true := h c (by simp)
    simp [List.dropWhile, hc, ih (fun d hd => h d (by simp [hd]))]

theorem parsePosFloat_natChars (n : ℕ) : parsePosFloat (natChars n) = some ((n : ℕ) : ℚ) := by
  have hall := natChars_all_digits n
  have htake : (natChars n).takeWhile isDigitChar = natChars n :=
    takeWhile_eq_self_of_all _ hall
  have hdrop : (natChars n).dropWhile isDigitChar = [] :=
    dropWhile_eq_nil_of_all _ hall
  unfold parsePosFloat
  rw [hdrop, htake]
  simp [natChars_ne_nil n, natChars_val n]

theorem goParseFloatAux_natChars (n : ℕ) :
    goParseFloatAux (natChars n) = some ((n : ℕ) : ℚ) := by
  obtain ⟨c, cs, hcons⟩ : ∃ c cs, natChars n = c :: cs := by
    cases hnc : natChars n with
    | nil => exact absurd hnc (natChars_ne_nil _)
    | cons c cs => exact ⟨c, cs, rfl⟩
  have hcd : isDigitChar c = true := by
    have := natChars_all_digits n
    rw [hcons] at this
    exact this c (by simp)
  have hcp : ¬(c = '+') := by
    intro h; subst h; simp [isDigitChar] at hcd
  have hcm : ¬(c = '-') := by
    intro h; subst h; simp [isDigitChar] at hcd
  rw [hcons]
  simp only [goParseFloatAux, if_neg hcp, if_neg hcm]
  rw [← hcons, parsePosFloat_natChars]

theorem goParseFloat_sprintInt (n : ℤ) : goParseFloat (sprintInt n) = some ((n : ℤ) : ℚ) := by
  by_cases hneg : n < 0
  · have hs : sprintInt n = String.mk ('-' :: natChars n.natAbs) := by simp [sprintInt, hneg]
    rw [hs]
    show goParseFloatAux ('-' :: natChars n.natAbs) = some ((n : ℤ) : ℚ)
    have habs : ((n.natAbs : ℕ) : ℚ) = -(n : ℚ) := by
      rw [Int.cast_natAbs, abs_of_nonpos (le_of_lt hneg)]
      push_cast
      ring
    simp [goParseFloatAux, parsePosFloat_natChars, habs]
  · have hnn : 0 ≤ n := le_of_not_lt hneg
    have hs : sprintInt n = String.mk (natChars n.toNat) := by simp [sprintInt, hneg]
    rw [hs]
    show goParseFloatAux (natChars n.toNat) = some ((n : ℤ) : ℚ)
    rw [goParseFloatAux_natChars]
    congr 1
    exact_mod_cast Int.toNat_of_nonneg hnn

theorem sprintInt_injective : Function.Injective sprintInt := by
  intro a b hab
  have ha := goParseFloat_sprintInt a
  have hb := goParseFloat_sprintInt b
  rw [hab] at ha
  rw [hb] at ha
  have : ((a : ℤ) : ℚ) = ((b : ℤ) : ℚ) := by
    exact_mod_cast (Option.some_injective _ ha.symm)
  exact_mod_cast this

/-- Fraction digits of Go time.Duration.String (fmtFrac): renders prec
digits after the decimal point, least significant first, omitting
trailing zeros and, when all are zero, the point itself; returns the
remaining value. -/
def fmtFrac : ℕ → ℕ → Bool → List Char → (List Char × ℕ)
  | v, 0, pr, acc => (if pr then '.' :: acc else acc, v)
  | v, prec + 1, pr, acc =>
    let digit := v % 10
    let pr2 := pr || decide (digit ≠ 0)
    fmtFrac (v / 10) prec pr2 (if pr2 then digitChar digit :: acc else acc)

/-- Integer prefix of Go time.Duration.String (fmtInt). -/
def fmtInt (v : ℕ) (acc : List Char) : List Char := natChars v ++ acc

/-- Go time.Duration.String, the rendering fmt.Sprint applies to a
Latency value: "0s"; a sub-second value with a small unit (ns, µs, ms)
and up to full precision; otherwise seconds, minutes and hours with a
fractional seconds part; negatives carry a leading minus sign. -/
def sprintDuration (d : ℤ) : String :=
  let u := d.natAbs
  let core :=
    if u < 1000000000 then
      if u = 0 then ['0', 's']
      else if u < 1000 then fmtInt u ['n', 's']
      else if u < 1000000 then
        let fr := fmtFrac u 3 false ['µ', 's']
        fmtInt fr.2 fr.1
      else
        let fr := fmtFrac u 6 false ['m', 's']
        fmtInt fr.2 fr.1
    else
      let fr := fmtFrac u 9 false ['s']
      let l1 := fmtInt (fr.2 % 60) fr.1
      let u3 := fr.2 / 60
      if u3 = 0 then l1
      else
        let l2 := fmtInt (u3 % 60) ('m' :: l1)
        let u4 := u3 / 60
        if u4 = 0 then l2 else fmtInt u4 ('h' :: l2)
  if d < 0 then String.mk ('-' :: core) else String.mk core

/-- The comparison set of prop.go: a Go map from the rendered actual
value to the rendered ideal value, modelled as an association list with
last-write-wins update.  Iteration order of a Go map is arbitrary; every
result read off the map here (the rational sum, and whether the
mixed-kind panic is hit) is independent of that order, so list order
stands in for it. -/
abbrev comparisons := List (String × String)

/-- comparisons.add of prop.go: c[fmt.Sprint(actual)] = fmt.Sprint(ideal),
with the rendering applied by the caller.  A key already present is
overwritten (Go map assignment); a fresh key is appended. -/
def comparisons.add (c : comparisons) (actual ideal : String) : comparisons :=
  if c.any (fun pr => pr.1 = actual) then
    c.map (fun pr => if pr.1 = actual then (actual, ideal) else pr)
  else c ++ [(actual, ideal)]

/-- One iteration of the fitnessDistance loop of prop.go on the pair
(actual, ideal): 0 for textually equal values; the normalised relative
difference |a-i|/max(|a|,|i|) when both parse as numbers; 1 for
differing non-numeric values; none models the mixed-kind panic.  (In Go
the numeric branch divides float64s and two textually distinct renderings
of the same number would give NaN; the canonical integer renderings fed
in by FitnessDistance parse to distinct values whenever the strings
differ, so that case is unreachable from Media values.) -/
def fieldDistance (actual ideal : String) : Option ℚ :=
  if actual = ideal then some 0
  else
    match goParseFloat actual, goParseFloat ideal with
    | some a, some i => some (|a - i| / max |a| |i|)
    | none, none => some (if actual = ideal then 0 else 1)
    | _, _ => none

/-- Accumulation of per-field contributions; none (the panic) absorbs. -/
def optAdd : Option ℚ → Option ℚ → Option ℚ
  | some a, some b => some (a + b)
  | _, _ => none

/-- comparisons.fitnessDistance of prop.go: folds the comparison map,
adding each pair's contribution; none models the mixed-kind panic. -/
def comparisons.fitnessDistance (c : comparisons) : Option ℚ :=
  c.foldl (fun acc pr => optAdd acc (fieldDistance pr.1 pr.2)) (some 0)

/-- prop.Media with its embedded Video, Audio and Codec structs flattened
(Go struct embedding promotes their fields onto Media, which is exactly
how the source reads them: p.Width, p.SampleRate, ...).  Go int fields
are ℤ, float32 is ℚ, frame.Format (a string type) is String, and
time.Duration is ℤ nanoseconds. -/
structure Media where
  DeviceID : String
  Width : ℤ
  Height : ℤ
  FrameRate : ℚ
  FrameFormat : String
  ChannelCount : ℤ
  Latency : ℤ
  SampleRate : ℤ
  SampleSize : ℤ
  CodecName : String
  BitRate : ℤ
  Quality : ℤ
  KeyFrameInterval : ℤ
deriving DecidableEq

/-- The comparison map built by prop.Media.FitnessDistance: the five
cmps.add calls on Width, Height, FrameFormat, SampleRate and Latency in
source order, each value rendered with fmt.Sprint. -/
def mediaCmps (p o : Media) : comparisons :=
  comparisons.add
    (comparisons.add
      (comparisons.add
        (comparisons.add
          (comparisons.add [] (sprintInt p.Width) (sprintInt o.Width))
          (sprintInt p.Height) (sprintInt o.Height))
        p.FrameFormat o.FrameFormat)
      (sprintInt p.SampleRate) (sprintInt o.SampleRate))
    (sprintDuration p.Latency) (sprintDuration o.Latency)

/-- prop.Media.FitnessDistance: builds the comparison map from the five
compared fields and folds it with comparisons.fitnessDistance. -/
def Media.FitnessDistance (p o : Media) : Option ℚ :=
  comparisons.fitnessDistance (mediaCmps p o)

/-- Modelled from the spec: the total distance as the sum over all five
compared fields of independent per-field contributions, each field pair
scored on its own (the refinement statement FitnessDistance is compared
against). -/
def specFieldSum (p o : Media) : Option ℚ :=
  optAdd (optAdd (optAdd (optAdd (optAdd (some 0)
    (fieldDistance (sprintInt p.Width) (sprintInt o.Width)))
    (fieldDistance (sprintInt p.Height) (sprintInt o.Height)))
    (fieldDistance p.FrameFormat o.FrameFormat))
    (fieldDistance (sprintInt p.SampleRate) (sprintInt o.SampleRate)))
    (fieldDistance (sprintDuration p.Latency) (sprintDuration o.Latency))

/-- A Media value with every field at its Go zero value: the candidate or
constraint in which nothing is set, i.e. every field is unconstrained. -/
def emptyMedia : Media :=
  { DeviceID := "", Width := 0, Height := 0, FrameRate := 0, FrameFormat := "",
    ChannelCount := 0, Latency := 0, SampleRate := 0, SampleSize := 0,
    CodecName := "", BitRate := 0, Quality := 0, KeyFrameInterval := 0 }

/-- A Media value whose only nonzero field is Width. -/
def widthOnlyMedia (w : ℤ) : Media := { emptyMedia with Width := w }

theorem fieldDistance_numeric {a i : String} {qa qi : ℚ} (hne : a ≠ i)
    (ha : goParseFloat a = some qa) (hi : goParseFloat i = some qi) :
    fieldDistance a i = some (|qa - qi| / max |qa| |qi|) := by
  rw [fieldDistance, if_neg hne, ha, hi]

theorem fieldDistance_self {a i : String} (h : a = i) : fieldDistance a i = some 0 := by
  rw [fieldDistance, if_pos h]

theorem fieldDistance_nonnumeric {a i : String} (hne : a ≠ i)
    (ha : goParseFloat a = none) (hi : goParseFloat i = none) :
    fieldDistance a i = some 1 := by
  rw [fieldDistance, if_neg hne, ha, hi]
  simp [hne]

theorem fieldDistance_mixed {a i : String}
    (hmix : (goParseFloat a).isSome ≠ (goParseFloat i).isSome) :
    fieldDistance a i = none := by
  have hne : a ≠ i := by
    intro h; subst h; exact hmix rfl
  rw [fieldDistance, if_neg hne]
  cases ha : goParseFloat a with
  | none =>
    cases hi : goParseFloat i with
    | none => rw [ha, hi] at hmix; simp at hmix
    | some qi => rfl
  | some qa =>
    cases hi : goParseFloat i with
    | none => rfl
    | some qi => rw [ha, hi] at hmix; simp at hmix

example : sprintInt 640 = "640" := by decide
example : sprintInt (-7) = "-7" := by decide
example : sprintDuration 0 = "0s" := by decide
example : sprintDuration 1500 = "1.5µs" := by decide
example : sprintDuration 90500000000 = "1m30.5s" := by decide
example : goParseFloat "640" = some 640 := by decide
example : goParseFloat "0s" = none := by decide
example : goParseFloat "" = none := by decide
example : fieldDistance "0" "7" = some 1 := by
  rw [fieldDistance_numeric (by decide) (show goParseFloat "0" = some 0 by decide)
    (show goParseFloat "7" = some 7 by decide)]
  norm_num
example : fieldDistance "3" "5" = some (2 / 5) := by
  rw [fieldDistance_numeric (by decide) (show goParseFloat "3" = some 3 by decide)
    (show goParseFloat "5" = some 5 by decide)]
  norm_num
example : fieldDistance "a" "b" = some 1 := by decide
example : fieldDistance "1" "b" = none := by decide

/-- The error values a pipeline read or write can carry, as the loops of
track.go distinguish them: mio.InsufficientBufferError with its
RequiredSize field, io.EOF (the end-of-stream/closed indicator a closed
device or encoder makes the blocking read return), and any other error
(identified by its message). -/
inductive ReadErr where
  | insufficientBuffer (requiredSize : ℕ)
  | eof
  | other (msg : String)
deriving DecidableEq

/-- One encoder.Read outcome: n bytes on success, or an error. -/
inductive ReadResult where
  | ok (n : ℕ)
  | fail (e : ReadErr)
deriving DecidableEq

/-- How a processing loop finished: returned after reporting the error e
to track.onError, or still looping when the supplied script of read
outcomes ran out. -/
inductive LoopExit where
  | ended (e : ReadErr)
  | running
deriving DecidableEq

/-- Observable trace of one run of videoTrack.start: the buffer length
passed to each encoder.Read, the byte count of each sample handed to the
sampler, every argument passed to track.onError, and how the loop
finished. -/
structure VideoTrace where
  reads : List ℕ
  emitted : List ℕ
  onErrorCalls : List ReadErr
  exit : LoopExit
deriving DecidableEq

/-- videoTrack.start of track.go, driven by a script of encoder.Read
outcomes and by sampleRes, the result of the k-th vt.s.sample call (none
on success).  The loop reads into a buffer of length b (initially 1024);
on an InsufficientBufferError with RequiredSize R it reallocates the
buffer to 2*R and continues; on any other read error, or a sample error,
it calls track.onError with that error and returns; on success it hands
buff[:n] to the sampler. -/
def videoLoopAux (sampleRes : ℕ → Option ReadErr) :
    List ReadResult → ℕ → ℕ → VideoTrace
  | [], _, _ => ⟨[], [], [], LoopExit.running⟩
  | ReadResult.ok n :: rest, k, b =>
    match sampleRes k with
    | none =>
      let t := videoLoopAux sampleRes rest (k + 1) b
      ⟨b :: t.reads, n :: t.emitted, t.onErrorCalls, t.exit⟩
    | some e => ⟨[b], [], [e], LoopExit.ended e⟩
  | ReadResult.fail (ReadErr.insufficientBuffer R) :: rest, k, b =>
    let t := videoLoopAux sampleRes rest k (2 * R)
    ⟨b :: t.reads, t.emitted, t.onErrorCalls, t.exit⟩
  | ReadResult.fail ReadErr.eof :: _, _, b =>
    ⟨[b], [], [ReadErr.eof], LoopExit.ended ReadErr.eof⟩
  | ReadResult.fail (ReadErr.other m) :: _, _, b =>
    ⟨[b], [], [ReadErr.other m], LoopExit.ended (ReadErr.other m)⟩

/-- videoTrack.start from its entry: buff := make([]byte, 1024). -/
def videoStart (script : List ReadResult) (sampleRes : ℕ → Option ReadErr) : VideoTrace :=
  videoLoopAux sampleRes script 0 1024

/-- Observable trace of one run of audioTrack.start: buffer length per
encoder.Read, the (data length, Samples annotation) of every
media.Sample passed to WriteSample, every argument passed to
track.onError, and how the loop finished. -/
structure AudioTrace where
  reads : List ℕ
  emitted : List (ℕ × ℕ)
  onErrorCalls : List ReadErr
  exit : LoopExit
deriving DecidableEq

/-- audioTrack.start of track.go, driven by a script of encoder.Read
outcomes and by writeRes, the result of the k-th WriteSample call.  The
buffer stays at its initial 1024 length for every read; there is no
InsufficientBufferError branch, so every read error whatsoever goes to
track.onError; each successful read is written as media.Sample{Data:
buff[:n], Samples: sampleSize} with the sampleSize computed before the
loop. -/
def audioLoopAux (sampleSize : ℕ) (writeRes : ℕ → Option ReadErr) :
    List ReadResult → ℕ → AudioTrace
  | [], _ => ⟨[], [], [], LoopExit.running⟩
  | ReadResult.ok n :: rest, k =>
    match writeRes k with
    | none =>
      let t := audioLoopAux sampleSize writeRes rest (k + 1)
      ⟨1024 :: t.reads, (n, sampleSize) :: t.emitted, t.onErrorCalls, t.exit⟩
    | some e => ⟨[1024], [(n, sampleSize)], [e], LoopExit.ended e⟩
  | ReadResult.fail e :: _, _ => ⟨[1024], [], [e], LoopExit.ended e⟩

/-- time.Duration.Seconds(), exact over ℚ: the duration in nanoseconds
divided by 1e9. -/
def durationSeconds (d : ℤ) : ℚ := (d : ℚ) / 1000000000

/-- Go's uint32(f) conversion on an in-range float value: truncation of
the (here exactly represented) value, reduced mod 2^32.  (Out-of-range
conversions are unspecified in Go; negative values clamp to 0 here.) -/
def goUint32 (q : ℚ) : ℕ := (Int.toNat ⌊q⌋) % 4294967296

/-- sampleSize := uint32(float64(t.constraints.SampleRate) *
t.constraints.Latency.Seconds()), computed once before the audio loop.
The constraints' embedded prop.Media supplies SampleRate and Latency. -/
def audioSampleSize (c : Media) : ℕ :=
  goUint32 ((c.SampleRate : ℚ) * durationSeconds c.Latency)

/-- audioTrack.start from its entry: the sample size is computed once,
then the loop runs. -/
def audioStart (c : Media) (script : List ReadResult) (writeRes : ℕ → Option ReadErr) : AudioTrace :=
  audioLoopAux (audioSampleSize c) writeRes script 0

/-- The two handles a running track owns exclusively: the opened device
and the constructed encoder. -/
structure TrackResources where
  deviceOpen : Bool
  encoderOpen : Bool
deriving DecidableEq

/-- videoTrack.Stop: vt.d.Close(); vt.encoder.Close() — both handles are
released before Stop returns, whatever state they were in. -/
def videoTrackStop (_ : TrackResources) : TrackResources :=
  { deviceOpen := false, encoderOpen := false }

/-- audioTrack.Stop: t.d.Close(); t.encoder.Close(). -/
def audioTrackStop (_ : TrackResources) : TrackResources :=
  { deviceOpen := false, encoderOpen := false }

/-- The resource-affecting operations a track constructor can perform. -/
inductive ResOp where
  | openDevice
  | closeDevice
  | buildEncoder
  | closeEncoder
  | startLoop
deriving DecidableEq

/-- newVideoTrack of track.go as the sequence of resource operations it
performs before returning, one branch per return path, together with
whether it returned a track (true) or an error (false): newTrack failure
and d.Open() failure return before acquiring anything;
vr.VideoRecord failure and codec.BuildVideoEncoder failure return the
error directly with no Close call after the successful d.Open(); on
success the goroutine running vt.start is launched. -/
def newVideoTrackTrace (trackErr openErr recordErr encoderErr : Bool) : List ResOp × Bool :=
  if trackErr then ([], false)
  else if openErr then ([], false)
  else if recordErr then ([ResOp.openDevice], false)
  else if encoderErr then ([ResOp.openDevice], false)
  else ([ResOp.openDevice, ResOp.buildEncoder, ResOp.startLoop], true)

/-- newAudioTrack of track.go: identical structure to newVideoTrack with
ar.AudioRecord and codec.BuildAudioEncoder on the failure paths. -/
def newAudioTrackTrace (trackErr openErr recordErr encoderErr : Bool) : List ResOp × Bool :=
  if trackErr then ([], false)
  else if openErr then ([], false)
  else if recordErr then ([ResOp.openDevice], false)
  else if encoderErr then ([ResOp.openDevice], false)
  else ([ResOp.openDevice, ResOp.buildEncoder, ResOp.startLoop], true)

/-- Whether a constructor's operation sequence leaves the device handle
open when it returns. -/
def deviceStillOpen (ops : List ResOp) : Bool :=
  ops.count ResOp.closeDevice < ops.count ResOp.openDevice

theorem videoLoopAux_no_insufficient (sampleRes : ℕ → Option ReadErr)
    (hs : ∀ k S, sampleRes k ≠ some (ReadErr.insufficientBuffer S)) :
    ∀ (script : List ReadResult) (k b S : ℕ),
      ReadErr.insufficientBuffer S ∉ (videoLoopAux sampleRes script k b).onErrorCalls := by
  intro script
  induction script with
  | nil => intro k b S; simp [videoLoopAux]
  | cons r rest ih =>
    intro k b S
    cases r with
    | ok n =>
      cases hk : sampleRes k with
      | none => simpa [videoLoopAux, hk] using ih (k + 1) b S
      | some e =>
        simp only [videoLoopAux, hk, List.mem_singleton]
        intro hcontra
        exact hs k S (by rw [hk, hcontra])
    | fail e =>
      cases e with
      | insufficientBuffer R => simpa [videoLoopAux] using ih k (2 * R) S
      | eof => simp [videoLoopAux]
      | other m => simp [videoLoopAux]

theorem videoLoopAux_once (sampleRes : ℕ → Option ReadErr) :
    ∀ (script : List ReadResult) (k b : ℕ),
      (videoLoopAux sampleRes script k b).onErrorCalls.length ≤ 1 ∧
      ∀ e, (videoLoopAux sampleRes script k b).exit = LoopExit.ended e →
        (videoLoopAux sampleRes script k b).onErrorCalls = [e] := by
  intro script
  induction script with
  | nil =>
    intro k b
    refine ⟨by simp [videoLoopAux], ?_⟩
    intro e he
    simp [videoLoopAux] at he
  | cons r rest ih =>
    intro k b
    cases r with
    | ok n =>
      cases hk : sampleRes k with
      | none =>
        refine ⟨by simpa [videoLoopAux, hk] using (ih (k + 1) b).1, ?_⟩
        intro e he
        simp only [videoLoopAux, hk] at he ⊢
        exact (ih (k + 1) b).2 e he
      | some e0 =>
        refine ⟨by simp [videoLoopAux, hk], ?_⟩
        intro e he
        simp only [videoLoopAux, hk, LoopExit.ended.injEq] at he
        simp [videoLoopAux, hk, he]
    | fail e0 =>
      cases e0 with
      | insufficientBuffer R =>
        refine ⟨by simpa [videoLoopAux] using (ih k (2 * R)).1, ?_⟩
        intro e he
        simp only [videoLoopAux] at he ⊢
        exact (ih k (2 * R)).2 e he
      | eof =>
        refine ⟨by simp [videoLoopAux], ?_⟩
        intro e he
        simp only [videoLoopAux, LoopExit.ended.injEq] at he
        simp [videoLoopAux, he]
      | other m =>
        refine ⟨by simp [videoLoopAux], ?_⟩
        intro e he
        simp only [videoLoopAux, LoopExit.ended.injEq] at he
        simp [videoLoopAux, he]

theorem audioLoopAux_once (ssz : ℕ) (writeRes : ℕ → Option ReadErr) :
    ∀ (script : List ReadResult) (k : ℕ),
      (audioLoopAux ssz writeRes script k).onErrorCalls.length ≤ 1 ∧
      ∀ e, (audioLoopAux ssz writeRes script k).exit = LoopExit.ended e →
        (audioLoopAux ssz writeRes script k).onErrorCalls = [e] := by
  intro script
  induction script with
  | nil =>
    intro k
    refine ⟨by simp [audioLoopAux], ?_⟩
    intro e he
    simp [audioLoopAux] at he
  | cons r rest ih =>
    intro k
    cases r with
    | ok n =>
      cases hk : writeRes k with
      | none =>
        refine ⟨by simpa [audioLoopAux, hk] using (ih (k + 1)).1, ?_⟩
        intro e he
        simp only [audioLoopAux, hk] at he ⊢
        exact (ih (k + 1)).2 e he
      | some e0 =>
        refine ⟨by simp [audioLoopAux, hk], ?_⟩
        intro e he
        simp only [audioLoopAux, hk, LoopExit.ended.injEq] at he
        simp [audioLoopAux, hk, he]
    | fail e0 =>
      refine ⟨by simp [audioLoopAux], ?_⟩
      intro e he
      simp only [audioLoopAux, LoopExit.ended.injEq] at he
      simp [audioLoopAux, he]

theorem audioLoopAux_emitted (ssz : ℕ) (writeRes : ℕ → Option ReadErr) :
    ∀ (script : List ReadResult) (k : ℕ),
      ∀ pr ∈ (audioLoopAux ssz writeRes script k).emitted, pr.2 = ssz := by
  intro script
  induction script with
  | nil => intro k pr hpr; simp [audioLoopAux] at hpr
  | cons r rest ih =>
    intro k pr hpr
    cases r with
    | ok n =>
      cases hk : writeRes k with
      | none =>
        simp only [audioLoopAux, hk, List.mem_cons] at hpr
        rcases hpr with hpr | hpr
        · rw [hpr]
        · exact ih (k + 1) pr hpr
      | some e0 =>
        simp only [audioLoopAux, hk, List.mem_singleton] at hpr
        rw [hpr]
    | fail e0 => simp [audioLoopAux] at hpr

theorem videoLoopAux_reads_first (sampleRes : ℕ → Option ReadErr)
    (r : ReadResult) (rest : List ReadResult) (k b : ℕ) :
    (videoLoopAux sampleRes (r :: rest) k b).reads.get? 0 = some b := by
  cases r with
  | ok n => cases hk : sampleRes k <;> simp [videoLoopAux, hk]
  | fail e => cases e <;> simp [videoLoopAux]

theorem videoLoopAux_retry (sampleRes : ℕ → Option ReadErr) :
    ∀ (script : List ReadResult) (i R k b : ℕ),
      script.get? i = some (ReadResult.fail (ReadErr.insufficientBuffer R)) →
      i < (videoLoopAux sampleRes script k b).reads.length →
      ((∀ x, (videoLoopAux sampleRes script k b).reads.get? (i + 1) = some x → x = 2 * R) ∧
        (i + 1 < script.length →
          (videoLoopAux sampleRes script k b).reads.get? (i + 1) = some (2 * R))) := by
  intro script
  induction script with
  | nil => intro i R k b hget _; simp at hget
  | cons r rest ih =>
    intro i R k b hget hlen
    cases r with
    | ok n =>
      cases hk : sampleRes k with
      | none =>
        cases i with
        | zero => simp at hget
        | succ i =>
          simp only [List.get?_cons_succ] at hget
          simp only [videoLoopAux, hk] at hlen ⊢
          simp only [List.length_cons, Nat.succ_lt_succ_iff] at hlen
          have h := ih i R (k + 1) b hget hlen
          refine ⟨?_, ?_⟩
          · intro x hx
            exact h.1 x (by simpa using hx)
          · intro hi
            simp only [List.length_cons, Nat.succ_lt_succ_iff] at hi
            simpa using h.2 hi
      | some e =>
        simp only [videoLoopAux, hk, List.length_singleton] at hlen
        interval_cases i
        simp at hget
    | fail e =>
      cases e with
      | insufficientBuffer S =>
        cases i with
        | zero =>
          simp only [List.get?_cons_zero, Option.some.injEq] at hget
          have hSR : S = R := by
            injection hget with h1
            injection h1
          subst hSR
          simp only [videoLoopAux]
          refine ⟨?_, ?_⟩
          · intro x hx
            simp only [zero_add, List.get?_cons_succ] at hx
            cases rest with
            | nil => simp [videoLoopAux] at hx
            | cons r2 rest2 =>
              rw [videoLoopAux_reads_first] at hx
              injection hx with h
              omega
          · intro hi
            simp only [zero_add, List.get?_cons_succ]
            cases rest with
            | nil => simp at hi
            | cons r2 rest2 => exact videoLoopAux_reads_first sampleRes r2 rest2 k (2 * S)
        | succ i =>
          simp only [List.get?_cons_succ] at hget
          simp only [videoLoopAux] at hlen ⊢
          simp only [List.length_cons, Nat.succ_lt_succ_iff] at hlen
          have h := ih i R k (2 * S) hget hlen
          refine ⟨?_, ?_⟩
          · intro x hx
            exact h.1 x (by simpa using hx)
          · intro hi
            simp only [List.length_cons, Nat.succ_lt_succ_iff] at hi
            simpa using h.2 hi
      | eof =>
        simp only [videoLoopAux, List.length_singleton] at hlen
        interval_cases i
        simp at hget
      | other m =>
        simp only [videoLoopAux, List.length_singleton] at hlen
        interval_cases i
        simp at hget

theorem audioLoopAux_reach_fail (ssz : ℕ) (writeRes : ℕ → Option ReadErr) :
    ∀ (script : List ReadResult) (i : ℕ) (e : ReadErr) (k : ℕ),
      script.get? i = some (ReadResult.fail e) →
      i < (audioLoopAux ssz writeRes script k).reads.length →
      (audioLoopAux ssz writeRes script k).exit = LoopExit.ended e ∧
      (audioLoopAux ssz writeRes script k).onErrorCalls = [e] := by
  intro script
  induction script with
  | nil => intro i e k hget _; simp at hget
  | cons r rest ih =>
    intro i e k hget hlen
    cases r with
    | ok n =>
      cases hk : writeRes k with
      | none =>
        cases i with
        | zero => simp at hget
        | succ i =>
          simp only [List.get?_cons_succ] at hget
          simp only [audioLoopAux, hk] at hlen ⊢
          simp only [List.length_cons, Nat.succ_lt_succ_iff] at hlen
          exact ih i e (k + 1) hget hlen
      | some e0 =>
        simp only [audioLoopAux, hk, List.length_singleton] at hlen
        interval_cases i
        simp at hget
    | fail e0 =>
      cases i with
      | zero =>
        simp only [List.get?_cons_zero, Option.some.injEq] at hget
        have he : e0 = e := by injection hget
        subst he
        simp [audioLoopAux]
      | succ i =>
        simp only [audioLoopAux, List.length_singleton] at hlen
        omega

theorem optAdd_none_left (x : Option ℚ) : optAdd none x = none := by
  cases x <;> rfl

theorem foldl_optAdd_none :
    ∀ l : List (String × String),
      l.foldl (fun acc pr => optAdd acc (fieldDistance pr.1 pr.2)) none = none := by
  intro l
  induction l with
  | nil => rfl
  | cons x xs ih => simpa [List.foldl_cons, optAdd_none_left] using ih

theorem fitnessDistance_none_of_mem :
    ∀ (c : comparisons) (init : Option ℚ) (a i : String), (a, i) ∈ c →
      fieldDistance a i = none →
      c.foldl (fun acc pr => optAdd acc (fieldDistance pr.1 pr.2)) init = none := by
  intro c
  induction c with
  | nil => intro init a i hmem _; simp at hmem
  | cons x xs ih =>
    intro init a i hmem hnone
    rcases List.mem_cons.mp hmem with hx | hx
    · subst hx
      simp only [List.foldl_cons, hnone]
      have : optAdd init none = none := by cases init <;> rfl
      rw [this, foldl_optAdd_none]
    · simp only [List.foldl_cons]
      exact ih _ a i hx hnone

theorem add_fresh {c : comparisons} {k v : String} (h : ∀ pr ∈ c, pr.1 ≠ k) :
    comparisons.add c k v = c ++ [(k, v)] := by
  have hany : c.any (fun pr => pr.1 = k) = false := by
    rw [List.any_eq_false]
    intro pr hpr
    simpa using h pr hpr
  simp [comparisons.add, hany]

/-- Candidate for the C3 counterexample: Width and Height both render to
"0", so their map keys collide. -/
def mediaC3p : Media := { emptyMedia with SampleRate := 5, FrameFormat := "x" }

/-- Constraint for the C3 counterexample: Width 7 differs from the
candidate's Width 0; all other compared fields agree. -/
def mediaC3o : Media := { mediaC3p with Width := 7 }

/-- C3: the claim that the fitness distance always equals the sum of the
five independent per-field contributions is false: the comparison map is
keyed by the rendered actual value, so the Height pair (0,0) overwrites
the Width pair (0,7) and the Width mismatch is silently dropped — the
code returns 0 where the per-field sum is 1. -/
theorem claimC3_counterexample :
    Media.FitnessDistance mediaC3p mediaC3o = some 0 ∧
    specFieldSum mediaC3p mediaC3o = some 1 ∧
    some (0 : ℚ) ≠ some (1 : ℚ) := by
  refine ⟨?_, ?_, by norm_num⟩
  · have hm : mediaCmps mediaC3p mediaC3o =
        [("0", "0"), ("x", "x"), ("5", "5"), ("0s", "0s")] := by decide
    rw [Media.FitnessDistance, hm]
    rw [show comparisons.fitnessDistance [("0", "0"), ("x", "x"), ("5", "5"), ("0s", "0s")]
        = optAdd (optAdd (optAdd (optAdd (some 0) (fieldDistance "0" "0"))
          (fieldDistance "x" "x")) (fieldDistance "5" "5")) (fieldDistance "0s" "0s") from rfl]
    rw [fieldDistance_self rfl, fieldDistance_self rfl, fieldDistance_self rfl,
      fieldDistance_self rfl]
    simp [optAdd]
  · rw [show specFieldSum mediaC3p mediaC3o
        = optAdd (optAdd (optAdd (optAdd (optAdd (some 0) (fieldDistance "0" "7"))
          (fieldDistance "0" "0")) (fieldDistance "x" "x")) (fieldDistance "5" "5"))
          (fieldDistance "0s" "0s") from rfl]
    rw [fieldDistance_numeric (by decide) (show goParseFloat "0" = some 0 by decide)
      (show goParseFloat "7" = some 7 by decide),
      fieldDistance_self rfl, fieldDistance_self rfl, fieldDistance_self rfl,
      fieldDistance_self rfl]
    simp [optAdd]

/-- C3 (amended): the fitness distance equals the sum of the independent
per-field contributions of the five compared fields whenever the
rendered actual values of those fields are pairwise distinct (so that no
map key collides); with a collision the later field's pair overwrites
the earlier one's. -/
theorem claimC3 (p o : Media)
    (h1 : sprintInt p.Width ≠ sprintInt p.Height)
    (h2 : sprintInt p.Width ≠ p.FrameFormat)
    (h3 : sprintInt p.Width ≠ sprintInt p.SampleRate)
    (h4 : sprintInt p.Width ≠ sprintDuration p.Latency)
    (h5 : sprintInt p.Height ≠ p.FrameFormat)
    (h6 : sprintInt p.Height ≠ sprintInt p.SampleRate)
    (h7 : sprintInt p.Height ≠ sprintDuration p.Latency)
    (h8 : p.FrameFormat ≠ sprintInt p.SampleRate)
    (h9 : p.FrameFormat ≠ sprintDuration p.Latency)
    (h10 : sprintInt p.SampleRate ≠ sprintDuration p.Latency) :
    Media.FitnessDistance p o = specFieldSum p o := by
  have e1 : comparisons.add [] (sprintInt p.Width) (sprintInt o.Width)
      = [(sprintInt p.Width, sprintInt o.Width)] := add_fresh (by simp)
  have e2 : comparisons.add [(sprintInt p.Width, sprintInt o.Width)]
      (sprintInt p.Height) (sprintInt o.Height)
      = [(sprintInt p.Width, sprintInt o.Width),
        (sprintInt p.Height, sprintInt o.Height)] := by
    refine add_fresh ?_
    intro pr hpr
    simp only [List.mem_singleton] at hpr
    subst hpr
    exact h1
  have e3 : comparisons.add
      [(sprintInt p.Width, sprintInt o.Width), (sprintInt p.Height, sprintInt o.Height)]
      p.FrameFormat o.FrameFormat
      = [(sprintInt p.Width, sprintInt o.Width),
        (sprintInt p.Height, sprintInt o.Height),
        (p.FrameFormat, o.FrameFormat)] := by
    refine add_fresh ?_
    intro pr hpr
    rcases List.mem_cons.mp hpr with h | h
    · subst h; exact h2
    · simp only [List.mem_singleton] at h; subst h; exact h5
  have e4 : comparisons.add
      [(sprintInt p.Width, sprintInt o.Width), (sprintInt p.Height, sprintInt o.Height),
        (p.FrameFormat, o.FrameFormat)]
      (sprintInt p.SampleRate) (sprintInt o.SampleRate)
      = [(sprintInt p.Width, sprintInt o.Width),
        (sprintInt p.Height, sprintInt o.Height),
        (p.FrameFormat, o.FrameFormat),
        (sprintInt p.SampleRate, sprintInt o.SampleRate)] := by
    refine add_fresh ?_
    intro pr hpr
    rcases List.mem_cons.mp hpr with h | h
    · subst h; exact h3
    rcases List.mem_cons.mp h with h | h
    · subst h; exact h6
    · simp only [List.mem_singleton] at h; subst h; exact h8
  have e5 : comparisons.add
      [(sprintInt p.Width, sprintInt o.Width), (sprintInt p.Height, sprintInt o.Height),
        (p.FrameFormat, o.FrameFormat), (sprintInt p.SampleRate, sprintInt o.SampleRate)]
      (sprintDuration p.Latency) (sprintDuration o.Latency)
      = [(sprintInt p.Width, sprintInt o.Width),
        (sprintInt p.Height, sprintInt o.Height),
        (p.FrameFormat, o.FrameFormat),
        (sprintInt p.SampleRate, sprintInt o.SampleRate),
        (sprintDuration p.Latency, sprintDuration o.Latency)] := by
    refine add_fresh ?_
    intro pr hpr
    rcases List.mem_cons.mp hpr with h | h
    · subst h; exact h4
    rcases List.mem_cons.mp h with h | h
    · subst h; exact h7
    rcases List.mem_cons.mp h with h | h
    · subst h; exact h9
    · simp only [List.mem_singleton] at h; subst h; exact h10
  show comparisons.fitnessDistance (mediaCmps p o) = specFieldSum p o
  rw [mediaCmps, e1, e2, e3, e4, e5]
  rfl

/-- Candidate used to witness the amended C3: all five compared fields
render to pairwise distinct strings. -/
def mediaC3w : Media :=
  { emptyMedia with Width := 1, Height := 2, FrameFormat := "x", SampleRate := 3 }

theorem claimC3_witness :
    Media.FitnessDistance mediaC3w emptyMedia = specFieldSum mediaC3w emptyMedia :=
  claimC3 mediaC3w emptyMedia (by decide) (by decide) (by decide) (by decide) (by decide)
    (by decide) (by decide) (by decide) (by decide) (by decide)

/-- C5: the claim that unconstrained fields are excluded from the
comparison is false: FitnessDistance unconditionally adds all five
fields, so against a fully unconstrained (zero-valued) ideal a candidate
with Width 640 scores 1 (a full mismatch of the width pair (640, 0))
where exclusion of unconstrained fields would give an empty comparison
set and distance 0. -/
theorem claimC5_counterexample :
    Media.FitnessDistance (widthOnlyMedia 640) emptyMedia = some 1 ∧
    some (1 : ℚ) ≠ some (0 : ℚ) := by
  refine ⟨?_, by norm_num⟩
  have hm : mediaCmps (widthOnlyMedia 640) emptyMedia =
      [("640", "0"), ("0", "0"), ("", ""), ("0s", "0s")] := by decide
  rw [Media.FitnessDistance, hm]
  rw [show comparisons.fitnessDistance [("640", "0"), ("0", "0"), ("", ""), ("0s", "0s")]
      = optAdd (optAdd (optAdd (optAdd (some 0) (fieldDistance "640" "0"))
        (fieldDistance "0" "0")) (fieldDistance "" "")) (fieldDistance "0s" "0s") from rfl]
  rw [fieldDistance_numeric (by decide) (show goParseFloat "640" = some 640 by decide)
    (show goParseFloat "0" = some 0 by decide),
    fieldDistance_self rfl, fieldDistance_self rfl, fieldDistance_self rfl]
  simp [optAdd]

/-- C5 (amended): no field is ever excluded from the comparison set: all
five compared fields participate unconditionally, and a field the caller
left unconstrained (its zero value) is scored against the candidate's
actual value — a candidate whose only nonzero compared field is a width
w ≠ 0 is at distance exactly 1 from the fully unconstrained ideal, the
width pair scoring |w-0|/max(|w|,0) = 1. -/
theorem claimC5 (w : ℤ) (hw : w ≠ 0) :
    Media.FitnessDistance (widthOnlyMedia w) emptyMedia = some 1 := by
  have hsw : goParseFloat (sprintInt w) = some ((w : ℤ) : ℚ) := goParseFloat_sprintInt w
  have hne0 : sprintInt w ≠ "0" := by
    intro h
    exact hw (sprintInt_injective (h.trans (show ("0" : String) = sprintInt 0 by decide)))
  have hneE : sprintInt w ≠ "" := by
    intro h
    have h2 := hsw
    rw [h, show goParseFloat "" = none from by decide] at h2
    exact Option.noConfusion h2
  have hneS : sprintInt w ≠ "0s" := by
    intro h
    have h2 := hsw
    rw [h, show goParseFloat "0s" = none from by decide] at h2
    exact Option.noConfusion h2
  have hfields : mediaCmps (widthOnlyMedia w) emptyMedia =
      comparisons.add (comparisons.add (comparisons.add (comparisons.add
        (comparisons.add [] (sprintInt w) "0") "0" "0") "" "") "0" "0") "0s" "0s" := rfl
  have t1 : comparisons.add [] (sprintInt w) "0" = [(sprintInt w, "0")] :=
    add_fresh (by simp)
  have t2 : comparisons.add [(sprintInt w, "0")] "0" "0"
      = [(sprintInt w, "0"), ("0", "0")] := by
    refine add_fresh ?_
    intro pr hpr
    simp only [List.mem_singleton] at hpr
    subst hpr
    exact hne0
  have t3 : comparisons.add [(sprintInt w, "0"), ("0", "0")] "" ""
      = [(sprintInt w, "0"), ("0", "0"), ("", "")] := by
    refine add_fresh ?_
    intro pr hpr
    rcases List.mem_cons.mp hpr with h | h
    · subst h; exact hneE
    · simp only [List.mem_singleton] at h; subst h; decide
  have t4 : comparisons.add [(sprintInt w, "0"), ("0", "0"), ("", "")] "0" "0"
      = [(sprintInt w, "0"), ("0", "0"), ("", "")] := by
    simp [comparisons.add, hne0]
  have t5 : comparisons.add [(sprintInt w, "0"), ("0", "0"), ("", "")] "0s" "0s"
      = [(sprintInt w, "0"), ("0", "0"), ("", ""), ("0s", "0s")] := by
    refine add_fresh ?_
    intro pr hpr
    rcases List.mem_cons.mp hpr with h | h
    · subst h; exact hneS
    rcases List.mem_cons.mp h with h | h
    · subst h; decide
    · simp only [List.mem_singleton] at h; subst h; decide
  rw [Media.FitnessDistance, hfields, t1, t2, t3, t4, t5]
  rw [show comparisons.fitnessDistance
        [(sprintInt w, "0"), ("0", "0"), ("", ""), ("0s", "0s")]
      = optAdd (optAdd (optAdd (optAdd (some 0) (fieldDistance (sprintInt w) "0"))
        (fieldDistance "0" "0")) (fieldDistance "" "")) (fieldDistance "0s" "0s") from rfl]
  rw [fieldDistance_numeric hne0 hsw (show goParseFloat "0" = some 0 by decide),
    fieldDistance_self rfl, fieldDistance_self rfl, fieldDistance_self rfl]
  have hwq : ((w : ℤ) : ℚ) ≠ 0 := by exact_mod_cast hw
  have hval : |((w : ℤ) : ℚ) - 0| / max |((w : ℤ) : ℚ)| |(0 : ℚ)| = 1 := by
    rw [sub_zero, abs_zero, max_eq_left (abs_nonneg _), div_self (abs_ne_zero.mpr hwq)]
  rw [hval]
  simp [optAdd]

theorem claimC5_witness :
    Media.FitnessDistance (widthOnlyMedia 1280) emptyMedia = some 1 :=
  claimC5 1280 (by decide)

/-- C6: whenever the comparison set holds a pair of which exactly one
side parses as a number, fitnessDistance hits the mixed-kind panic
(modelled none) instead of returning any finite score. -/
theorem claimC6 (c : comparisons) (a i : String) (hmem : (a, i) ∈ c)
    (hmix : (goParseFloat a).isSome ≠ (goParseFloat i).isSome) :
    comparisons.fitnessDistance c = none := by
  unfold comparisons.fitnessDistance
  exact fitnessDistance_none_of_mem c (some 0) a i hmem (fieldDistance_mixed hmix)

theorem claimC6_witness : comparisons.fitnessDistance [("1", "x")] = none :=
  claimC6 [("1", "x")] "1" "x" (by simp) (by decide)

/-- C7: for a compared pair of numeric (integer-valued) fields, equal
values contribute 0, and unequal values contribute exactly
|a-i|/max(|a|,|i|), which is strictly positive. -/
theorem claimC7 (a i : ℤ) :
    (a = i → fieldDistance (sprintInt a) (sprintInt i) = some 0) ∧
    (a ≠ i →
      fieldDistance (sprintInt a) (sprintInt i) =
        some (|((a : ℤ) : ℚ) - ((i : ℤ) : ℚ)| / max |((a : ℤ) : ℚ)| |((i : ℤ) : ℚ)|) ∧
      0 < |((a : ℤ) : ℚ) - ((i : ℤ) : ℚ)| / max |((a : ℤ) : ℚ)| |((i : ℤ) : ℚ)|) := by
  constructor
  · intro h
    exact fieldDistance_self (congrArg sprintInt h)
  · intro hne
    have hs : sprintInt a ≠ sprintInt i := fun h => hne (sprintInt_injective h)
    have hq : ((a : ℤ) : ℚ) ≠ ((i : ℤ) : ℚ) := by exact_mod_cast hne
    refine ⟨fieldDistance_numeric hs (goParseFloat_sprintInt a) (goParseFloat_sprintInt i), ?_⟩
    apply div_pos (abs_pos.mpr (sub_ne_zero.mpr hq))
    rcases eq_or_ne a 0 with ha | ha
    · subst ha
      have hi0 : ((i : ℤ) : ℚ) ≠ 0 := by
        intro h
        apply hq
        rw [h]
        norm_num
      exact lt_of_lt_of_le (abs_pos.mpr hi0) (le_max_right _ _)
    · exact lt_of_lt_of_le (abs_pos.mpr (by exact_mod_cast ha)) (le_max_left _ _)

theorem claimC7_witness :
    fieldDistance (sprintInt 3) (sprintInt 5) =
      some (|((3 : ℤ) : ℚ) - ((5 : ℤ) : ℚ)| / max |((3 : ℤ) : ℚ)| |((5 : ℤ) : ℚ)|) ∧
    0 < |((3 : ℤ) : ℚ) - ((5 : ℤ) : ℚ)| / max |((3 : ℤ) : ℚ)| |((5 : ℤ) : ℚ)| :=
  (claimC7 3 5).2 (by decide)

/-- C10: the fitness distance reads only Width, Height, FrameFormat,
SampleRate and Latency; two evaluations whose arguments agree on those
five fields give identical distances, however the remaining fields
(FrameRate, ChannelCount, SampleSize, DeviceID, CodecName, BitRate,
Quality, KeyFrameInterval) differ. -/
theorem claimC10 (p o p' o' : Media)
    (hpw : p.Width = p'.Width) (hph : p.Height = p'.Height)
    (hpf : p.FrameFormat = p'.FrameFormat) (hpr : p.SampleRate = p'.SampleRate)
    (hpl : p.Latency = p'.Latency)
    (how : o.Width = o'.Width) (hoh : o.Height = o'.Height)
    (hof : o.FrameFormat = o'.FrameFormat) (hor : o.SampleRate = o'.SampleRate)
    (hol : o.Latency = o'.Latency) :
    Media.FitnessDistance p o = Media.FitnessDistance p' o' := by
  unfold Media.FitnessDistance mediaCmps
  rw [hpw, hph, hpf, hpr, hpl, how, hoh, hof, hor, hol]

/-- A candidate with every non-compared field set to a nonzero value. -/
def mediaC10a : Media :=
  { DeviceID := "cam-a", Width := 640, Height := 480, FrameRate := 30,
    FrameFormat := "yuy2", ChannelCount := 2, Latency := 20000000,
    SampleRate := 48000, SampleSize := 16, CodecName := "vp8",
    BitRate := 100000, Quality := 9, KeyFrameInterval := 60 }

/-- The same compared fields as mediaC10a with every non-compared field
at its zero value. -/
def mediaC10b : Media :=
  { emptyMedia with
    Width := 640, Height := 480, FrameFormat := "yuy2",
    Latency := 20000000, SampleRate := 48000 }

theorem claimC10_witness :
    Media.FitnessDistance mediaC10a emptyMedia = Media.FitnessDistance mediaC10b emptyMedia :=
  claimC10 mediaC10a emptyMedia mediaC10b emptyMedia rfl rfl rfl rfl rfl rfl rfl rfl rfl rfl

/-- C1: the claim that the audio loop, like the video loop, retries on
an insufficient-buffer read is false: audioTrack.start has no
InsufficientBufferError branch, and the condition goes straight to the
failure callback. -/
theorem claimC1_counterexample :
    (audioStart emptyMedia [ReadResult.fail (ReadErr.insufficientBuffer 4096)]
        (fun _ => none)).onErrorCalls = [ReadErr.insufficientBuffer 4096] ∧
    (audioStart emptyMedia [ReadResult.fail (ReadErr.insufficientBuffer 4096)]
        (fun _ => none)).exit = LoopExit.ended (ReadErr.insufficientBuffer 4096) :=
  ⟨rfl, rfl⟩

/-- C1 (amended): only the video loop handles the insufficient-buffer
condition: when its encoder read reports a required size R it retries
the next read with a buffer of 2*R ≥ R and never passes the condition to
the failure callback; the audio loop performs no such handling and ends
by delivering the insufficient-buffer error to the failure callback. -/
theorem claimC1 :
    (∀ (script : List ReadResult) (sampleRes : ℕ → Option ReadErr) (i R : ℕ),
      (∀ k S, sampleRes k ≠ some (ReadErr.insufficientBuffer S)) →
      script.get? i = some (ReadResult.fail (ReadErr.insufficientBuffer R)) →
      i < (videoStart script sampleRes).reads.length →
        (∀ S, ReadErr.insufficientBuffer S ∉ (videoStart script sampleRes).onErrorCalls) ∧
        (∀ x, (videoStart script sampleRes).reads.get? (i + 1) = some x →
          x = 2 * R ∧ R ≤ x) ∧
        (i + 1 < script.length →
          (videoStart script sampleRes).reads.get? (i + 1) = some (2 * R))) ∧
    (∀ (c : Media) (script : List ReadResult) (writeRes : ℕ → Option ReadErr) (i R : ℕ),
      script.get? i = some (ReadResult.fail (ReadErr.insufficientBuffer R)) →
      i < (audioStart c script writeRes).reads.length →
        (audioStart c script writeRes).exit = LoopExit.ended (ReadErr.insufficientBuffer R) ∧
        (audioStart c script writeRes).onErrorCalls = [ReadErr.insufficientBuffer R]) := by
  constructor
  · intro script sampleRes i R hs hget hlen
    have hretry := videoLoopAux_retry sampleRes script i R 0 1024 hget hlen
    refine ⟨fun S => videoLoopAux_no_insufficient sampleRes hs script 0 1024 S, ?_, hretry.2⟩
    intro x hx
    have hx2 := hretry.1 x hx
    exact ⟨hx2, by omega⟩
  · intro c script writeRes i R hget hlen
    exact audioLoopAux_reach_fail (audioSampleSize c) writeRes script i
      (ReadErr.insufficientBuffer R) 0 hget hlen

theorem claimC1_witness :
    (videoStart [ReadResult.fail (ReadErr.insufficientBuffer 2000), ReadResult.ok 10]
        (fun _ => none)).reads.get? 1 = some (2 * 2000) ∧
    (audioStart emptyMedia [ReadResult.fail (ReadErr.insufficientBuffer 2000)]
        (fun _ => none)).onErrorCalls = [ReadErr.insufficientBuffer 2000] :=
  ⟨(claimC1.1 [ReadResult.fail (ReadErr.insufficientBuffer 2000), ReadResult.ok 10]
      (fun _ => none) 0 2000 (by intro k S; simp) (by decide) (by decide)).2.2 (by decide),
    (claimC1.2 emptyMedia [ReadResult.fail (ReadErr.insufficientBuffer 2000)]
      (fun _ => none) 0 2000 (by decide) (by decide)).2⟩

/-- C2: the claim that the failure callback is not invoked when the read
failure directly follows Stop is false: the video loop has no special
case for the end-of-stream indicator and passes io.EOF to track.onError
(the repository's own test registers a handler that tolerates exactly
io.EOF for this reason). -/
theorem claimC2_counterexample :
    (videoStart [ReadResult.fail ReadErr.eof] (fun _ => none)).onErrorCalls = [ReadErr.eof] ∧
    [ReadErr.eof] ≠ ([] : List ReadErr) :=
  ⟨rfl, by decide⟩

/-- C2 (amended): Stop synchronously releases both the device and the
encoder; the processing loop then terminates on the resulting
end-of-stream read — but it does deliver that end-of-stream error to the
failure callback (exactly once), rather than suppressing it. -/
theorem claimC2 :
    (∀ t : TrackResources,
      (videoTrackStop t).deviceOpen = false ∧ (videoTrackStop t).encoderOpen = false ∧
      (audioTrackStop t).deviceOpen = false ∧ (audioTrackStop t).encoderOpen = false) ∧
    (∀ (rest : List ReadResult) (sampleRes : ℕ → Option ReadErr),
      (videoStart (ReadResult.fail ReadErr.eof :: rest) sampleRes).exit
          = LoopExit.ended ReadErr.eof ∧
      (videoStart (ReadResult.fail ReadErr.eof :: rest) sampleRes).onErrorCalls
          = [ReadErr.eof]) ∧
    (∀ (c : Media) (rest : List ReadResult) (writeRes : ℕ → Option ReadErr),
      (audioStart c (ReadResult.fail ReadErr.eof :: rest) writeRes).exit
          = LoopExit.ended ReadErr.eof ∧
      (audioStart c (ReadResult.fail ReadErr.eof :: rest) writeRes).onErrorCalls
          = [ReadErr.eof]) :=
  ⟨fun _ => ⟨rfl, rfl, rfl, rfl⟩, fun _ _ => ⟨rfl, rfl⟩, fun _ _ _ => ⟨rfl, rfl⟩⟩

/-- C4: evaluating the constructors on the failure paths that follow a
successful d.Open(): a raw-source acquisition failure (VideoRecord /
AudioRecord) or an encoder construction failure makes newVideoTrack /
newAudioTrack return the error while the device handle is still open —
no Close is performed on these paths, contradicting the spec's
requirement that partially acquired resources be released. -/
theorem claimC4_evidence :
    ((newVideoTrackTrace false false true false).2 = false ∧
      deviceStillOpen (newVideoTrackTrace false false true false).1 = true) ∧
    ((newVideoTrackTrace false false false true).2 = false ∧
      deviceStillOpen (newVideoTrackTrace false false false true).1 = true) ∧
    ((newAudioTrackTrace false false true false).2 = false ∧
      deviceStillOpen (newAudioTrackTrace false false true false).1 = true) ∧
    ((newAudioTrackTrace false false false true).2 = false ∧
      deviceStillOpen (newAudioTrackTrace false false false true).1 = true) := by
  decide

/-- C8: over any script of read outcomes and any sampler/sink behaviour,
each processing loop invokes track.onError at most once, and when the
loop terminates with a non-recoverable error it invokes track.onError
exactly once with precisely that error. -/
theorem claimC8 (script : List ReadResult) (sampleRes writeRes : ℕ → Option ReadErr)
    (c : Media) :
    ((videoStart script sampleRes).onErrorCalls.length ≤ 1 ∧
      ∀ e, (videoStart script sampleRes).exit = LoopExit.ended e →
        (videoStart script sampleRes).onErrorCalls = [e]) ∧
    ((audioStart c script writeRes).onErrorCalls.length ≤ 1 ∧
      ∀ e, (audioStart c script writeRes).exit = LoopExit.ended e →
        (audioStart c script writeRes).onErrorCalls = [e]) :=
  ⟨videoLoopAux_once sampleRes script 0 1024,
    audioLoopAux_once (audioSampleSize c) writeRes script 0⟩

theorem claimC8_witness :
    (videoStart [ReadResult.fail (ReadErr.other "read failure")]
        (fun _ => none)).onErrorCalls = [ReadErr.other "read failure"] ∧
    (audioStart emptyMedia [ReadResult.fail (ReadErr.other "write failure")]
        (fun _ => none)).onErrorCalls = [ReadErr.other "write failure"] :=
  ⟨(claimC8 [ReadResult.fail (ReadErr.other "read failure")] (fun _ => none)
      (fun _ => none) emptyMedia).1.2 (ReadErr.other "read failure") rfl,
    (claimC8 [ReadResult.fail (ReadErr.other "write failure")] (fun _ => none)
      (fun _ => none) emptyMedia).2.2 (ReadErr.other "write failure") rfl⟩

/-- C9: every sample the audio loop hands to WriteSample carries the
Samples annotation uint32(float64(SampleRate) * Latency.Seconds()),
computed once before the loop from the track's constraints and identical
for every emitted sample. -/
theorem claimC9 (c : Media) (script : List ReadResult) (writeRes : ℕ → Option ReadErr) :
    ∀ pr ∈ (audioStart c script writeRes).emitted,
      pr.2 = goUint32 ((c.SampleRate : ℚ) * durationSeconds c.Latency) :=
  fun pr hpr => audioLoopAux_emitted (audioSampleSize c) writeRes script 0 pr hpr

/-- An audio constraint set: 48 kHz sample rate, 20 ms latency. -/
def mediaC9 : Media := { emptyMedia with SampleRate := 48000, Latency := 20000000 }

theorem claimC9_witness :
    ((100 : ℕ), (960 : ℕ)).2 =
      goUint32 ((mediaC9.SampleRate : ℚ) * durationSeconds mediaC9.Latency) := by
  have h960 : audioSampleSize mediaC9 = 960 := by
    norm_num [audioSampleSize, goUint32, durationSeconds,
      show mediaC9.SampleRate = 48000 from rfl, show mediaC9.Latency = 20000000 from rfl]
    decide
  refine claimC9 mediaC9 [ReadResult.ok 100] (fun _ => none) (100, 960) ?_
  rw [show (audioStart mediaC9 [ReadResult.ok 100] (fun _ => none)).emitted
      = [(100, audioSampleSize mediaC9)] from rfl, h960]
  simp
